import Mathlib

/-!
Verification of the answer-equivalence engine of the BayesPublic backend
(`utils/latex_utils.py` and `routers/answer.py`).

Strings are modelled as Lean `String`s (lists of Unicode characters), matching
Python `str`.  The regular-expression operations of the source are embedded as
explicit character-list scanners with the same left-to-right, leftmost-match
semantics.  The SymPy computer-algebra backend is external to the repository;
it is abstracted as a structure `CAS` of total functions (`sympify` returning
`Option` models the parse-or-raise behaviour which `latex_to_sympy` converts to
`None`), and every theorem about the strategy layer is proved for an arbitrary
such backend.  Confidence values are exact rationals; the source only stores
and compares these float literals, it never computes with them.
-/

namespace Bayes

/-- Whitespace characters recognised by the engine: the ASCII part of the class
matched by the source's regex `\s` and by `str.strip()`. -/
def isPySpace (c : Char) : Bool :=
  c = ' ' || c = '\t' || c = '\n' || c = '\r' || c = '\x0b' || c = '\x0c'

/-- Python `str.strip()` on a character list: drop whitespace from both ends. -/
def pyStripL (l : List Char) : List Char :=
  ((l.dropWhile isPySpace).reverse.dropWhile isPySpace).reverse

/-- Python `str.strip()`. -/
def pyStrip (s : String) : String := ⟨pyStripL s.data⟩

/-- One step of the regex `^\$`: drop a single leading dollar sign. -/
def stripLeadingDollar (l : List Char) : List Char :=
  match l with
  | c :: rest => if c = '$' then rest else c :: rest
  | [] => []

/-- `re.sub(r"^\$|\$$", "", l)`: the anchored alternation removes one leading
and then one trailing `$` (scanning left to right, so on `"$"` only the leading
one is seen). -/
def stripDollarEnds (l : List Char) : List Char :=
  (stripLeadingDollar (stripLeadingDollar l).reverse).reverse

/-- `re.sub(r"\s+", "", l)`: delete every whitespace character. -/
def removeWs (l : List Char) : List Char := l.filter (fun c => !isPySpace c)

/-- `clean_latex` from `utils/latex_utils.py`: remove all whitespace, then
strip a single leading and/or trailing `$`. -/
def clean_latex (s : String) : String := ⟨stripDollarEnds (removeWs s.data)⟩

theorem mem_stripLeadingDollar {a : Char} {l : List Char}
    (h : a ∈ stripLeadingDollar l) : a ∈ l := by
  match l with
  | [] => exact h
  | c :: rest =>
    by_cases hc : c = '$'
    · simp [stripLeadingDollar, hc] at h
      exact List.mem_cons_of_mem _ h
    · simpa [stripLeadingDollar, hc] using h

theorem mem_stripDollarEnds {a : Char} {l : List Char}
    (h : a ∈ stripDollarEnds l) : a ∈ l := by
  unfold stripDollarEnds at h
  rw [List.mem_reverse] at h
  have h2 := mem_stripLeadingDollar h
  rw [List.mem_reverse] at h2
  exact mem_stripLeadingDollar h2

theorem stripLeadingDollar_eq_self {l : List Char} (h : l.head? ≠ some '$') :
    stripLeadingDollar l = l := by
  match l with
  | [] => rfl
  | c :: rest =>
    have hc : c ≠ '$' := by
      intro hc
      exact h (by simp [hc])
    simp [stripLeadingDollar, hc]

theorem removeWs_eq_self {l : List Char} (h : ∀ a ∈ l, isPySpace a = false) :
    removeWs l = l := by
  unfold removeWs
  rw [List.filter_eq_self]
  intro a ha
  simp [h a ha]

theorem mem_removeWs_not_space {a : Char} {l : List Char} (h : a ∈ removeWs l) :
    isPySpace a = false := by
  unfold removeWs at h
  have := List.of_mem_filter h
  simpa using this

/-- The character class the lazy group `(.*?)` of `\${1,2}(.*?)\${1,2}` scans
over before its closer: any character other than `$` (where the closing
delimiter can start, and lazy matching stops at the first opportunity) and
other than newline (which `.` does not match). -/
def lazyPred (c : Char) : Bool := c ≠ '$' && c ≠ '\n'

/-- Matching the tail `(.*?)\${1,2}` of the delimiter regex at the start of
`l`: the lazy group captures the shortest run of non-`$`, non-newline
characters that is followed by a `$`; how many dollars the greedy closer then
consumes does not affect the captured content. -/
def lazyContent (l : List Char) : Option (List Char) :=
  if (l.dropWhile lazyPred).head? = some '$' then some (l.takeWhile lazyPred)
  else none

/-- Matching what follows the first `$` of the opener `\${1,2}`: if a second
`$` follows, the greedy opener consumes it first and the lazy content scans
the remainder; if that fails the engine backtracks to the one-dollar opener
and the lazy content scans from the second `$` (where it immediately finds a
closer). -/
def matchTail : List Char → Option (List Char)
  | [] => lazyContent []
  | c2 :: rest2 =>
    if c2 = '$' then
      match lazyContent rest2 with
      | some r => some r
      | none => lazyContent (c2 :: rest2)
    else lazyContent (c2 :: rest2)

/-- Matching the full pattern `\${1,2}(.*?)\${1,2}` at one position, returning
the captured group. -/
def matchDollars : List Char → Option (List Char)
  | [] => none
  | c1 :: rest1 => if c1 = '$' then matchTail rest1 else none

/-- The capture of the first (leftmost) match of `\${1,2}(.*?)\${1,2}`, as
`re.findall(...)[0]` returns it. -/
def firstDollarMatch : List Char → Option (List Char)
  | [] => none
  | c :: cs =>
    match matchDollars (c :: cs) with
    | some r => some r
    | none => firstDollarMatch cs

/-- `extract_math_expr` from `utils/latex_utils.py`:
`matches = re.findall(r"\${1,2}(.*?)\${1,2}", latex)` followed by
`matches[0].strip() if matches else latex.strip()`. -/
def extract_math_expr (latex : String) : String :=
  match firstDollarMatch latex.data with
  | some c => ⟨pyStripL c⟩
  | none => ⟨pyStripL latex.data⟩

/-- A run of `d` dollar signs. -/
def dollarRun (d : Nat) : List Char := List.replicate d '$'

/-- Specification-level notion for the amended claim C8: `l` decomposes as
`p ++ $^d1 ++ c ++ $^d2 ++ q` with one or two dollars on each side and a
delimited content free of newlines (the regex `.` does not match newline). -/
def IsDelim (l p c q : List Char) (d1 d2 : Nat) : Prop :=
  l = p ++ dollarRun d1 ++ c ++ dollarRun d2 ++ q
    ∧ 1 ≤ d1 ∧ d1 ≤ 2 ∧ 1 ≤ d2 ∧ d2 ≤ 2 ∧ ∀ ch ∈ c, ch ≠ '\n'

/-- The claim's plain-English notion of a dollar-delimited substring, with no
restriction at all on the delimited content. -/
def IsDelimAny (l p c q : List Char) (d1 d2 : Nat) : Prop :=
  l = p ++ dollarRun d1 ++ c ++ dollarRun d2 ++ q
    ∧ 1 ≤ d1 ∧ d1 ≤ 2 ∧ 1 ≤ d2 ∧ d2 ≤ 2

theorem dropWhile_append_of_all {p : Char → Bool} {l₁ : List Char}
    (l₂ : List Char) (h : ∀ a ∈ l₁, p a = true) :
    (l₁ ++ l₂).dropWhile p = l₂.dropWhile p := by
  induction l₁ with
  | nil => rfl
  | cons a l ih =>
    have ha : p a = true := h a (by simp)
    simp only [List.cons_append, List.dropWhile_cons, ha, if_true]
    exact ih (fun b hb => h b (by simp [hb]))

theorem dropWhile_starts_dollar {c : List Char} (t : List Char)
    (h : ∀ ch ∈ c, ch ≠ '\n') :
    ∃ r, (c ++ '$' :: t).dropWhile lazyPred = '$' :: r := by
  induction c with
  | nil =>
    refine ⟨t, ?_⟩
    have : lazyPred '$' = false := by decide
    simp [List.dropWhile_cons, this]
  | cons a l ih =>
    by_cases ha : lazyPred a = true
    · obtain ⟨r, hr⟩ := ih (fun ch hch => h ch (by simp [hch]))
      refine ⟨r, ?_⟩
      simp only [List.cons_append, List.dropWhile_cons, ha, if_true]
      exact hr
    · have ha' : a = '$' := by
        have hn : a ≠ '\n' := h a (by simp)
        by_cases hq : a = '$'
        · exact hq
        · exfalso
          apply ha
          unfold lazyPred
          simp [hq, hn]
      refine ⟨l ++ '$' :: t, ?_⟩
      subst ha'
      have : lazyPred '$' = false := by decide
      simp [List.dropWhile_cons, this]

theorem lazyContent_eq_some {l c0 : List Char} (h : lazyContent l = some c0) :
    (∃ t, l = c0 ++ '$' :: t) ∧ ∀ ch ∈ c0, ch ≠ '$' ∧ ch ≠ '\n' := by
  unfold lazyContent at h
  by_cases hc : (l.dropWhile lazyPred).head? = some '$'
  · rw [if_pos hc] at h
    have hc0 : l.takeWhile lazyPred = c0 := by injection h
    constructor
    · cases hd : l.dropWhile lazyPred with
      | nil => rw [hd] at hc; exact absurd hc (by simp)
      | cons x xs =>
        rw [hd] at hc
        have hx : x = '$' := by
          simp only [List.head?_cons, Option.some.injEq] at hc
          exact hc
        refine ⟨xs, ?_⟩
        conv_lhs => rw [← List.takeWhile_append_dropWhile (p := lazyPred) (l := l)]
        rw [hc0, hd, hx]
    · intro ch hch
      rw [← hc0] at hch
      have := List.mem_takeWhile_imp hch
      unfold lazyPred at this
      simp only [Bool.and_eq_true, decide_eq_true_eq] at this
      simpa using this
  · rw [if_neg hc] at h
    exact absurd h (by simp)

theorem lazyContent_isSome {c t : List Char} (h : ∀ ch ∈ c, ch ≠ '\n') :
    ∃ r, lazyContent (c ++ '$' :: t) = some r := by
  obtain ⟨r, hr⟩ := dropWhile_starts_dollar t h
  refine ⟨(c ++ '$' :: t).takeWhile lazyPred, ?_⟩
  unfold lazyContent
  rw [hr]
  simp

theorem lazyContent_dollar_head (t : List Char) :
    lazyContent ('$' :: t) = some [] := by
  have hlp : lazyPred '$' = false := by decide
  unfold lazyContent
  simp [List.dropWhile_cons, List.takeWhile_cons, hlp]

theorem matchDollars_some_delim {l c0 : List Char} (h : matchDollars l = some c0) :
    ∃ q d1 d2, IsDelim l [] c0 q d1 d2 := by
  cases l with
  | nil => exact absurd h (by simp [matchDollars])
  | cons c1 rest1 =>
    simp only [matchDollars] at h
    by_cases h1 : c1 = '$'
    · rw [if_pos h1] at h
      subst h1
      cases rest1 with
      | nil =>
        exfalso
        have hnone : lazyContent [] = none := by
          unfold lazyContent
          simp
        simp only [matchTail, hnone] at h
        exact Option.noConfusion h
      | cons c2 rest2 =>
        simp only [matchTail] at h
        by_cases h2 : c2 = '$'
        · rw [if_pos h2] at h
          subst h2
          cases hlc : lazyContent rest2 with
          | some r =>
            rw [hlc] at h
            simp only [Option.some.injEq] at h
            subst h
            obtain ⟨⟨t, ht⟩, hmem⟩ := lazyContent_eq_some hlc
            refine ⟨t, 2, 1, ?_, by omega, by omega, by omega, by omega,
              fun ch hch => (hmem ch hch).2⟩
            simp [dollarRun, ht, List.replicate]
          | none =>
            rw [hlc] at h
            simp only [lazyContent_dollar_head, Option.some.injEq] at h
            subst h
            refine ⟨rest2, 1, 1, ?_, by omega, by omega, by omega, by omega, by simp⟩
            simp [dollarRun, List.replicate]
        · rw [if_neg h2] at h
          obtain ⟨⟨t, ht⟩, hmem⟩ := lazyContent_eq_some h
          refine ⟨t, 1, 1, ?_, by omega, by omega, by omega, by omega,
            fun ch hch => (hmem ch hch).2⟩
          simp [dollarRun, List.replicate, ht]
    · rw [if_neg h1] at h
      exact absurd h (by simp)

theorem matchTail_isSome_from_content {c t : List Char}
    (hmem : ∀ ch ∈ c, ch ≠ '\n') :
    ∃ r, matchTail (c ++ '$' :: t) = some r := by
  cases hc : c with
  | nil =>
    simp only [List.nil_append, matchTail, if_pos rfl]
    cases hlc : lazyContent t with
    | some r => exact ⟨r, by simp [hlc]⟩
    | none => exact ⟨[], by simp [hlc, lazyContent_dollar_head]⟩
  | cons y ys =>
    simp only [List.cons_append, matchTail]
    by_cases hy : y = '$'
    · rw [if_pos hy]
      subst hy
      cases hlc : lazyContent (ys ++ '$' :: t) with
      | some r => exact ⟨r, by simp [hlc]⟩
      | none => exact ⟨[], by simp [hlc, lazyContent_dollar_head]⟩
    · rw [if_neg hy]
      rw [← List.cons_append]
      refine lazyContent_isSome ?_
      rw [← hc]
      exact hmem

theorem matchDollars_isSome_of_delim {l c q : List Char} {d1 d2 : Nat}
    (h : IsDelim l [] c q d1 d2) : ∃ r, matchDollars l = some r := by
  obtain ⟨heq, hd1a, hd1b, hd2a, hd2b, hmem⟩ := h
  simp only [List.nil_append] at heq
  have hd1 : d1 = 1 ∨ d1 = 2 := by omega
  have hd2 : d2 = 1 ∨ d2 = 2 := by omega
  have hsplit : ∃ t, l = dollarRun d1 ++ (c ++ '$' :: t) := by
    rcases hd2 with h2 | h2 <;> subst h2
    · exact ⟨q, by rw [heq]; simp [dollarRun, List.replicate]⟩
    · exact ⟨'$' :: q, by rw [heq]; simp [dollarRun, List.replicate]⟩
  obtain ⟨t, hl⟩ := hsplit
  rcases hd1 with h1 | h1 <;> subst h1
  · have hl' : l = '$' :: (c ++ '$' :: t) := by
      rw [hl]; simp [dollarRun, List.replicate]
    rw [hl']
    simp only [matchDollars, if_pos rfl]
    exact matchTail_isSome_from_content hmem
  · have hl' : l = '$' :: '$' :: (c ++ '$' :: t) := by
      rw [hl]; simp [dollarRun, List.replicate]
    rw [hl']
    simp only [matchDollars, if_pos rfl, matchTail, if_pos rfl]
    cases hlc : lazyContent (c ++ '$' :: t) with
    | some r => exact ⟨r, by simp [hlc]⟩
    | none => exact ⟨[], by simp [hlc, lazyContent_dollar_head]⟩

theorem isDelim_nil_elim {p c q : List Char} {d1 d2 : Nat}
    (h : IsDelim [] p c q d1 d2) : False := by
  obtain ⟨heq, h1, _, h3, _, _⟩ := h
  have := congrArg List.length heq
  simp [dollarRun] at this
  omega

theorem isDelim_cons_iff {ch x : Char} {cs xs c q : List Char} {d1 d2 : Nat} :
    IsDelim (ch :: cs) (x :: xs) c q d1 d2 ↔
      x = ch ∧ IsDelim cs xs c q d1 d2 := by
  constructor
  · rintro ⟨heq, hrest⟩
    simp only [List.cons_append] at heq
    have hx : ch = x := by simpa using congrArg List.head? heq
    have hcs : cs = xs ++ dollarRun d1 ++ c ++ dollarRun d2 ++ q := by
      have := congrArg List.tail heq
      simpa using this
    exact ⟨hx.symm, hcs, hrest⟩
  · rintro ⟨hx, heq, hrest⟩
    subst hx
    exact ⟨by simp [heq], hrest⟩

theorem firstDollarMatch_spec (l : List Char) :
    (firstDollarMatch l = none → ∀ p c q d1 d2, ¬ IsDelim l p c q d1 d2)
  ∧ (∀ c0, firstDollarMatch l = some c0 →
      ∃ p q d1 d2, IsDelim l p c0 q d1 d2
        ∧ ∀ p' c' q' d1' d2', IsDelim l p' c' q' d1' d2' →
            p.length ≤ p'.length) := by
  induction l with
  | nil =>
    constructor
    · intro _ p c q d1 d2 h
      exact isDelim_nil_elim h
    · intro c0 h
      exact absurd h (by simp [firstDollarMatch])
  | cons ch cs ih =>
    obtain ⟨ih1, ih2⟩ := ih
    cases hm : matchDollars (ch :: cs) with
    | some r =>
      have hf : firstDollarMatch (ch :: cs) = some r := by
        show (match matchDollars (ch :: cs) with
          | some r => some r
          | none => firstDollarMatch cs) = some r
        rw [hm]
      constructor
      · intro hnone
        rw [hf] at hnone
        exact absurd hnone (by simp)
      · intro c0 h0
        rw [hf] at h0
        have hr : r = c0 := by injection h0
        subst hr
        obtain ⟨q, d1, d2, hd⟩ := matchDollars_some_delim hm
        exact ⟨[], q, d1, d2, hd, fun p' c' q' d1' d2' _ => by simp⟩
    | none =>
      have hf : firstDollarMatch (ch :: cs) = firstDollarMatch cs := by
        show (match matchDollars (ch :: cs) with
          | some r => some r
          | none => firstDollarMatch cs) = firstDollarMatch cs
        rw [hm]
      constructor
      · intro hnone p c q d1 d2 hd
        rw [hf] at hnone
        cases p with
        | nil =>
          obtain ⟨r, hr⟩ := matchDollars_isSome_of_delim hd
          rw [hm] at hr
          exact absurd hr (by simp)
        | cons x xs =>
          obtain ⟨_, hd0⟩ := isDelim_cons_iff.mp hd
          exact ih1 hnone xs c q d1 d2 hd0
      · intro c0 h0
        rw [hf] at h0
        obtain ⟨p, q, d1, d2, hd, hmin⟩ := ih2 c0 h0
        refine ⟨ch :: p, q, d1, d2, isDelim_cons_iff.mpr ⟨rfl, hd⟩, ?_⟩
        intro p' c' q' d1' d2' hd'
        cases p' with
        | nil =>
          obtain ⟨r, hr⟩ := matchDollars_isSome_of_delim hd'
          rw [hm] at hr
          exact absurd hr (by simp)
        | cons x xs =>
          obtain ⟨_, hd0⟩ := isDelim_cons_iff.mp hd'
          have := hmin xs c' q' d1' d2' hd0
          simp only [List.length_cons]
          omega

/-- Claim C8 (amended): the notation extractor returns the trimmed content of
the first (leftmost-starting) substring delimited by one or two `$` characters
on each side whose delimited content contains no newline; when no such
newline-free delimited substring exists it returns the raw string trimmed.
It never raises (it is a total function), and absence of a match is not an
error. -/
theorem extract_math_expr_spec (raw : String) :
    ((∀ p c q d1 d2, ¬ IsDelim raw.data p c q d1 d2) →
        extract_math_expr raw = pyStrip raw)
  ∧ (∀ p c q d1 d2, IsDelim raw.data p c q d1 d2 →
      ∃ p0 c0 q0 e1 e2, IsDelim raw.data p0 c0 q0 e1 e2
        ∧ extract_math_expr raw = ⟨pyStripL c0⟩
        ∧ p0.length ≤ p.length) := by
  obtain ⟨s1, s2⟩ := firstDollarMatch_spec raw.data
  cases hm : firstDollarMatch raw.data with
  | none =>
    constructor
    · intro _
      unfold extract_math_expr
      rw [hm]
      rfl
    · intro p c q d1 d2 hd
      exact absurd hd (s1 hm p c q d1 d2)
  | some c0 =>
    constructor
    · intro hno
      obtain ⟨p, q, d1, d2, hd, _⟩ := s2 c0 hm
      exact absurd hd (hno p c0 q d1 d2)
    · intro p c q d1 d2 hd
      obtain ⟨p0, q0, e1, e2, hd0, hmin⟩ := s2 c0 hm
      refine ⟨p0, c0, q0, e1, e2, hd0, ?_, hmin p c q d1 d2 hd⟩
      unfold extract_math_expr
      rw [hm]

/-- Claim C8 (counterexample): `"$\na$"` contains a substring delimited by a
single `$` on each side (content `"\na"`, which trims to `"a"`), yet the
extractor returns the whole raw string trimmed, because the regex `.` does not
match the newline inside the would-be content. -/
theorem extract_math_expr_newline_cex :
    IsDelimAny ("$\na$").data [] ['\n', 'a'] [] 1 1
  ∧ extract_math_expr "$\na$" = "$\na$"
  ∧ pyStrip "\na" = "a"
  ∧ ("$\na$" : String) ≠ "a" := by
  refine ⟨⟨?_, ?_, ?_, ?_, ?_⟩, ?_, ?_, ?_⟩ <;> decide

/-- The character class `[^}]` of the fraction/root/function regexes. -/
def notCloseBrace (c : Char) : Bool := c ≠ '\x7d'

/-- The character class `[^]]` of the indexed-root regex. -/
def notCloseBracket (c : Char) : Bool := c ≠ ']'

/-- The group `([^}]+)` together with its closing brace `\x7d`: the greedy
class runs up to the first closing brace, which must exist, and the group must
be nonempty.  Returns the group and the rest after the closing brace. -/
def braceArg (l : List Char) : Option (List Char × List Char) :=
  let arg := l.takeWhile notCloseBrace
  match l.dropWhile notCloseBrace with
  | _ :: rest => if arg.isEmpty then none else some (arg, rest)
  | [] => none

/-- The group `([^]]+)` together with its closing bracket `]`. -/
def bracketArg (l : List Char) : Option (List Char × List Char) :=
  let arg := l.takeWhile notCloseBracket
  match l.dropWhile notCloseBracket with
  | _ :: rest => if arg.isEmpty then none else some (arg, rest)
  | [] => none

/-- One attempted match of `\\frac\{([^}]+)\}\{([^}]+)\}` at the head of `l`,
with replacement `(\1)/(\2)`: returns the replacement and the rest of the
input after the consumed match. -/
def fracMatcher (l : List Char) : Option (List Char × List Char) :=
  if ("\\frac\x7b".data).isPrefixOf l then
    match braceArg (l.drop 6) with
    | some (a, rest2) =>
      match rest2 with
      | c :: rest3 =>
        if c = '\x7b' then
          match braceArg rest3 with
          | some (b, rest4) =>
            some (['('] ++ a ++ [')', '/', '('] ++ b ++ [')'], rest4)
          | none => none
        else none
      | [] => none
    | none => none
  else none

/-- One attempted match of a single-argument macro pattern such as
`\\sqrt\{([^}]+)\}` at the head of `l`: `pat` is the literal prefix up to and
including the opening brace, and the replacement is `pre ++ group ++ post`. -/
def macroArgMatcher (pat pre post l : List Char) : Option (List Char × List Char) :=
  if pat.isPrefixOf l then
    match braceArg (l.drop pat.length) with
    | some (a, rest) => some (pre ++ (a ++ post), rest)
    | none => none
  else none

/-- One attempted match of `\\sqrt\[([^]]+)\]\{([^}]+)\}` at the head of `l`,
with replacement `(\2)**(1/(\1))`. -/
def sqrtNMatcher (l : List Char) : Option (List Char × List Char) :=
  if ("\\sqrt[".data).isPrefixOf l then
    match bracketArg (l.drop 6) with
    | some (n, rest2) =>
      match rest2 with
      | c :: rest3 =>
        if c = '\x7b' then
          match braceArg rest3 with
          | some (a, rest4) =>
            some (['('] ++ a ++ [')', '*', '*', '(', '1', '/', '('] ++ n ++ [')', ')'], rest4)
          | none => none
        else none
      | [] => none
    | none => none
  else none

/-- One attempted match of a literal pattern (such as `\\pi`) at the head of
`l`, with a literal replacement. -/
def litMatcher (pat rep l : List Char) : Option (List Char × List Char) :=
  if pat.isPrefixOf l && !pat.isEmpty then some (rep, l.drop pat.length)
  else none

/-- The left-to-right, non-overlapping scan of `re.sub`: at each position try
the matcher; on a match emit the replacement and continue after the consumed
text, otherwise emit the character and move one to the right.  Every matcher
used here consumes at least one character, so fuel equal to the input length
suffices. -/
def subScanF (m : List Char → Option (List Char × List Char)) :
    Nat → List Char → List Char
  | 0, l => l
  | _ + 1, [] => []
  | fuel + 1, c :: cs =>
    match m (c :: cs) with
    | some (rep, rest) => rep ++ subScanF m fuel rest
    | none => c :: subScanF m fuel cs

/-- `re.sub` with one of the matchers above. -/
def pySub (m : List Char → Option (List Char × List Char)) (s : List Char) :
    List Char :=
  subScanF m s.length s

/-- The fraction rewrite `re.sub(r"\\frac\{([^}]+)\}\{([^}]+)\}", r"(\1)/(\2)", ·)`,
the first pattern rewrite of `latex_to_sympy`. -/
def fracSub (s : List Char) : List Char := pySub fracMatcher s

/-- The ordered rewrite pipeline of `latex_to_sympy` from `utils/latex_utils.py`
(everything before the final `sympy.sympify` call): strip and remove one
dollar from each end, then apply the macro rewrites in source order —
fraction, square root, indexed root, sin, cos, tan, log, ln, pi, theta,
infinity, Euler's number, cdot, div, pm. -/
def latexRewrite (latex : String) : String :=
  let s0 := stripDollarEnds (pyStripL latex.data)
  let s1 := fracSub s0
  let s2 := pySub (macroArgMatcher "\\sqrt\x7b".data "sqrt(".data [')']) s1
  let s3 := pySub sqrtNMatcher s2
  let s4 := pySub (macroArgMatcher "\\sin\x7b".data "sin(".data [')']) s3
  let s5 := pySub (macroArgMatcher "\\cos\x7b".data "cos(".data [')']) s4
  let s6 := pySub (macroArgMatcher "\\tan\x7b".data "tan(".data [')']) s5
  let s7 := pySub (macroArgMatcher "\\log\x7b".data "log(".data [')']) s6
  let s8 := pySub (macroArgMatcher "\\ln\x7b".data "log(".data [')']) s7
  let s9 := pySub (litMatcher "\\pi".data "pi".data) s8
  let s10 := pySub (litMatcher "\\theta".data "theta".data) s9
  let s11 := pySub (litMatcher "\\infty".data "oo".data) s10
  let s12 := pySub (litMatcher "\\mathrm\x7be\x7d".data "E".data) s11
  let s13 := pySub (litMatcher "\\cdot".data ['*']) s12
  let s14 := pySub (litMatcher "\\div".data ['/']) s13
  let s15 := pySub (litMatcher "\\pm".data "+/-".data) s14
  ⟨s15⟩

theorem takeWhile_append_of_all {p : Char → Bool} {l₁ : List Char}
    (l₂ : List Char) (h : ∀ a ∈ l₁, p a = true) :
    (l₁ ++ l₂).takeWhile p = l₁ ++ l₂.takeWhile p := by
  induction l₁ with
  | nil => rfl
  | cons a l ih =>
    have ha : p a = true := h a (by simp)
    simp only [List.cons_append, List.takeWhile_cons, ha, if_true]
    rw [ih (fun b hb => h b (by simp [hb]))]

theorem braceArg_spec {A : List Char} (t : List Char) (hne : A ≠ [])
    (hA : ∀ ch ∈ A, ch ≠ '\x7d') :
    braceArg (A ++ '\x7d' :: t) = some (A, t) := by
  have hall : ∀ a ∈ A, notCloseBrace a = true := by
    intro a ha
    unfold notCloseBrace
    simp [hA a ha]
  have hbr : notCloseBrace '\x7d' = false := by decide
  have htake : (A ++ '\x7d' :: t).takeWhile notCloseBrace = A := by
    rw [takeWhile_append_of_all _ hall]
    simp [List.takeWhile_cons, hbr]
  have hdrop : (A ++ '\x7d' :: t).dropWhile notCloseBrace = '\x7d' :: t := by
    rw [dropWhile_append_of_all _ hall]
    simp [List.dropWhile_cons, hbr]
  unfold braceArg
  rw [htake, hdrop]
  simp [hne]

theorem isPrefixOf_append_self (p r : List Char) : p.isPrefixOf (p ++ r) = true := by
  induction p with
  | nil => simp [List.isPrefixOf]
  | cons a l ih => simp [List.isPrefixOf, ih]

theorem subScanF_nil (m : List Char → Option (List Char × List Char)) (k : Nat) :
    subScanF m k [] = [] := by
  cases k <;> rfl

theorem pySub_single_full {m : List Char → Option (List Char × List Char)}
    {l rep : List Char} (hm : m l = some (rep, [])) (hl : l ≠ []) :
    pySub m l = rep := by
  unfold pySub
  cases l with
  | nil => exact absurd rfl hl
  | cons c cs =>
    rw [List.length_cons]
    simp only [subScanF, hm]
    rw [subScanF_nil]
    simp

/-- Claim C4 (amended): the fraction rewrite sends `\frac{A}{B}` to `(A)/(B)`
for all nonempty operand strings `A` and `B` that contain no closing brace.
Operands that do contain `\x7d` — in particular any brace-closed macro such as
a completed `\sqrt\x7b...\x7d` — defeat the `[^}]+` groups, so that nested
constructs are not resolved (see the counterexample); the rewrites are applied
in the source's stated order, the fraction stage first. -/
theorem fracSub_frac_spec (A B : List Char) (hA : A ≠ []) (hB : B ≠ [])
    (hA2 : ∀ ch ∈ A, ch ≠ '\x7d') (hB2 : ∀ ch ∈ B, ch ≠ '\x7d') :
    fracSub ("\\frac\x7b".data ++ (A ++ ('\x7d' :: ('\x7b' :: (B ++ ['\x7d']))))) =
      ['('] ++ A ++ [')', '/', '('] ++ B ++ [')'] := by
  have h1 : braceArg (A ++ '\x7d' :: ('\x7b' :: (B ++ ['\x7d']))) =
      some (A, '\x7b' :: (B ++ ['\x7d'])) := braceArg_spec _ hA hA2
  have h2 : braceArg (B ++ '\x7d' :: []) = some (B, []) := braceArg_spec _ hB hB2
  have hm : fracMatcher ("\\frac\x7b".data ++ (A ++ ('\x7d' :: ('\x7b' :: (B ++ ['\x7d']))))) =
      some (['('] ++ A ++ [')', '/', '('] ++ B ++ [')'], []) := by
    unfold fracMatcher
    rw [if_pos (isPrefixOf_append_self _ _)]
    have hdrop : (("\\frac\x7b".data) ++ (A ++ ('\x7d' :: ('\x7b' :: (B ++ ['\x7d']))))).drop 6
        = A ++ ('\x7d' :: ('\x7b' :: (B ++ ['\x7d']))) := rfl
    rw [hdrop, h1]
    simp only [if_true, h2]
  unfold fracSub
  exact pySub_single_full hm (by simp)

/-- Claim C4 (witness for the amended theorem): `\frac\x7bx\x7d\x7b2\x7d`
rewrites to `(x)/(2)`. -/
theorem fracSub_frac_witness :
    fracSub ("\\frac\x7bx\x7d\x7b2\x7d").data = "(x)/(2)".data := by
  have h := fracSub_frac_spec ['x'] ['2'] (by decide) (by decide) (by decide) (by decide)
  exact h

/-- Claim C4 (counterexample): with `A = \sqrt\x7b2\x7d` and `B = 2`, the input
`\frac\x7bA\x7d\x7bB\x7d` is NOT rewritten to `(A)/(B)`: the fraction pattern
fails to match (its `[^}]+` group cannot span the closing brace inside `A`),
and the full pipeline instead leaves the `\frac` macro in place, rewriting only
the inner root, yielding `\frac\x7bsqrt(2)\x7d\x7b2\x7d`. -/
theorem latexRewrite_nested_frac_cex :
    fracSub ("\\frac\x7b\\sqrt\x7b2\x7d\x7d\x7b2\x7d").data =
      ("\\frac\x7b\\sqrt\x7b2\x7d\x7d\x7b2\x7d").data
  ∧ latexRewrite "\\frac\x7b\\sqrt\x7b2\x7d\x7d\x7b2\x7d" = "\\frac\x7bsqrt(2)\x7d\x7b2\x7d"
  ∧ latexRewrite "\\frac\x7b\\sqrt\x7b2\x7d\x7d\x7b2\x7d" ≠ "(\\sqrt\x7b2\x7d)/(2)"
  ∧ latexRewrite "\\frac\x7b\\sqrt\x7b2\x7d\x7d\x7b2\x7d" ≠ "(sqrt(2))/(2)" := by
  refine ⟨?_, ?_, ?_, ?_⟩ <;> decide

/-- Abstraction of the external SymPy computer-algebra backend over an
arbitrary expression type `σ`.  `sympify` returns `none` where
`sympy.sympify` raises (which `latex_to_sympy`'s `except` turns into `None`);
`fval` models `float(expr.evalf())`, `none` where that raises (e.g. free
variables); `equals` models `.equals` with its possible `None` collapsed to
`false`, exactly as Python truth-testing of the strategy condition does;
`isZero` models `== 0`.  All strategy theorems hold for every backend. -/
structure CAS (σ : Type) where
  sympify : String → Option σ
  fval : σ → Option ℚ
  simplify : σ → σ
  equals : σ → σ → Bool
  expand : σ → σ
  factor : σ → σ
  sub : σ → σ → σ
  isZero : σ → Bool

/-- `latex_to_sympy` from `utils/latex_utils.py`: the rewrite pipeline
followed by `sympy.sympify`; any parse exception yields `None`. -/
def latex_to_sympy {σ : Type} (C : CAS σ) (latex : String) : Option σ :=
  C.sympify (latexRewrite latex)

/-- `check_numeric_equivalence` from `utils/latex_utils.py`: parse both sides;
absent parses or a raising numeric evaluation give `False`; otherwise compare
the two evaluations against the absolute tolerance `1e-9`. -/
def check_numeric_equivalence {σ : Type} (C : CAS σ) (e1 e2 : String) : Bool :=
  match latex_to_sympy C e1, latex_to_sympy C e2 with
  | some s1, some s2 =>
    match C.fval s1, C.fval s2 with
    | some v1, some v2 => decide (|v1 - v2| < (1e-9 : ℚ))
    | _, _ => false
  | _, _ => false

/-- `check_symbolic_equivalence` from `utils/latex_utils.py`. -/
def check_symbolic_equivalence {σ : Type} (C : CAS σ) (e1 e2 : String) : Bool :=
  match latex_to_sympy C e1, latex_to_sympy C e2 with
  | some s1, some s2 => C.equals (C.simplify s1) (C.simplify s2)
  | _, _ => false

/-- `check_algebraic_equivalence` from `utils/latex_utils.py`: expanded forms
equal, or factored forms equal, or the simplified difference is zero. -/
def check_algebraic_equivalence {σ : Type} (C : CAS σ) (e1 e2 : String) : Bool :=
  match latex_to_sympy C e1, latex_to_sympy C e2 with
  | some s1, some s2 =>
    if C.equals (C.expand s1) (C.expand s2) then true
    else if C.equals (C.factor s1) (C.factor s2) then true
    else C.isZero (C.simplify (C.sub s1 s2))
  | _, _ => false

/-- `expr.split("=", 1)[1]`: everything after the first `=` (used only under a
guard that `=` occurs). -/
def afterFirstEq (l : List Char) : List Char :=
  match l.dropWhile (fun c => c ≠ '=') with
  | _ :: rest => rest
  | [] => []

/-- `are_equivalent` from `utils/latex_utils.py`: direct symbolic comparison;
then, if the reference contains `=` and the candidate does not, retry on the
reference's right-hand side; symmetrically for the candidate. -/
def are_equivalent {σ : Type} (C : CAS σ) (user_expr correct_expr : String) : Bool :=
  if check_symbolic_equivalence C user_expr correct_expr then true
  else if correct_expr.data.contains '=' && !(user_expr.data.contains '=') then
    check_symbolic_equivalence C user_expr ⟨pyStripL (afterFirstEq correct_expr.data)⟩
  else if user_expr.data.contains '=' && !(correct_expr.data.contains '=') then
    check_symbolic_equivalence C ⟨pyStripL (afterFirstEq user_expr.data)⟩ correct_expr
  else false

/-- Modelled from the spec: the claim's reading of the equation-RHS strategy,
which retries on the reference's right-hand side whenever the reference
contains `=`, without also requiring the candidate to be equation-free (the
code's first retry additionally requires `"=" not in user_expr`). -/
def are_equivalent_claimed {σ : Type} (C : CAS σ) (user_expr correct_expr : String) : Bool :=
  if check_symbolic_equivalence C user_expr correct_expr then true
  else if correct_expr.data.contains '=' then
    check_symbolic_equivalence C user_expr ⟨pyStripL (afterFirstEq correct_expr.data)⟩
  else if user_expr.data.contains '=' && !(correct_expr.data.contains '=') then
    check_symbolic_equivalence C ⟨pyStripL (afterFirstEq user_expr.data)⟩ correct_expr
  else false

/-- `ProblemType` from `models/answer_models.py`. -/
inductive ProblemType where
  | short_answer
  | multiple_choice
deriving DecidableEq

/-- `AnswerCheckRequest` from `models/answer_models.py` (the `problem_type`
string field is never read by the router and is omitted). -/
structure AnswerCheckRequest where
  user_answer : String
  correct_answer : String
  question_type : ProblemType
  selected_option : Option Int

/-- `AnswerCheckResponse` from `models/answer_models.py`.  Confidences are the
exact rational values of the float literals the router stores (it never does
float arithmetic on them). -/
structure AnswerCheckResponse where
  is_correct : Bool
  confidence : ℚ
  explanation : String
  error_message : Option String := none
  recognized_latex : Option String := none
deriving DecidableEq

/-- The digits of Python `int(string)` (ASCII model): all characters must be
decimal digits and there must be at least one. -/
def digitsVal (l : List Char) : Option Nat :=
  if !l.isEmpty && l.all Char.isDigit then
    some (l.foldl (fun acc c => 10 * acc + (c.toNat - '0'.toNat)) 0)
  else none

/-- Python `int(string)`: strip whitespace, an optional sign, then decimal
digits; anything else raises `ValueError`, modelled as `none`. -/
def pyInt (s : String) : Option Int :=
  match pyStripL s.data with
  | '+' :: ds => (digitsVal ds).map (fun n => (n : Int))
  | '-' :: ds => (digitsVal ds).map (fun n => -(n : Int))
  | ds => (digitsVal ds).map (fun n => (n : Int))

/-- The `strategies` list of `check_answer` (`routers/answer.py`): name,
matched flag and confidence weight, in source order. -/
def strategies {σ : Type} (C : CAS σ) (user_expr corr_expr : String) :
    List (String × Bool × ℚ) :=
  [("latex_exact", user_expr == corr_expr, 1),
   ("numeric", check_numeric_equivalence C user_expr corr_expr, 0.9),
   ("symbolic", check_symbolic_equivalence C user_expr corr_expr, 0.8),
   ("algebraic", check_algebraic_equivalence C user_expr corr_expr, 0.7),
   ("rhs_equiv", are_equivalent C user_expr corr_expr, 0.95)]

/-- `next(((name, conf) for name, ok, conf in strategies if ok), None)`. -/
def firstOk : List (String × Bool × ℚ) → Option (String × ℚ)
  | [] => none
  | (nm, ok, w) :: rest => if ok then some (nm, w) else firstOk rest

/-- The body of the `try` block of `check_answer` (`routers/answer.py`),
in the exception monad: `Except.error` would carry the text of an uncaught
exception to the handler.  Every branch in fact returns `Except.ok`. -/
def checkAnswerE {σ : Type} (C : CAS σ) (req : AnswerCheckRequest) :
    Except String AnswerCheckResponse :=
  match req.question_type with
  | ProblemType.multiple_choice =>
    match req.selected_option with
    | none =>
      Except.ok { is_correct := false, confidence := 0,
                  explanation := "No option selected" }
    | some sel =>
      match pyInt req.correct_answer with
      | some correct_idx =>
        if sel = correct_idx then
          Except.ok { is_correct := true, confidence := 1,
                      explanation := "Correct answer selected" }
        else
          Except.ok { is_correct := false, confidence := 0,
                      explanation := "Incorrect. Correct option was "
                        ++ toString (correct_idx + 1) ++ "." }
      | none =>
        Except.ok { is_correct := false, confidence := 0,
                    explanation := "Invalid correct_answer format",
                    error_message := some "Invalid correct_answer format" }
  | ProblemType.short_answer =>
    let user_expr := clean_latex (extract_math_expr (pyStrip req.user_answer))
    let corr_expr := clean_latex (extract_math_expr (pyStrip req.correct_answer))
    match firstOk (strategies C user_expr corr_expr) with
    | some (nm, conf) =>
      Except.ok { is_correct := true, confidence := conf,
                  explanation := "Answer correct via " ++ nm ++ " comparison" }
    | none =>
      Except.ok { is_correct := false, confidence := 0,
                  explanation := "Answer is incorrect. Expected " ++ corr_expr
                    ++ ", got " ++ user_expr }

/-- The `except Exception` handler of `check_answer`: an uncaught exception is
converted to a validation-error verdict carrying the exception text. -/
def handleTop : Except String AnswerCheckResponse → AnswerCheckResponse
  | Except.ok r => r
  | Except.error e =>
    { is_correct := false, confidence := 0, explanation := "Validation error",
      error_message := some e }

/-- `check_answer` from `routers/answer.py`. -/
def check_answer {σ : Type} (C : CAS σ) (req : AnswerCheckRequest) :
    AnswerCheckResponse :=
  handleTop (checkAnswerE C req)

/-- Claim C3 (counterexample): the cleaning operation is not idempotent.  With
`s = "$$x$$"` the first pass removes whitespace (none) and strips a single `$`
from each end, giving `"$x$"`; a second pass strips again and gives `"x"`. -/
theorem clean_latex_not_idempotent :
    clean_latex (clean_latex "$$x$$") ≠ clean_latex "$$x$$" := by decide

/-- Claim C3 (amended): cleaning is idempotent on every string whose cleaned
form neither begins nor ends with `$` (the single-dollar strip is what breaks
idempotence, so once the cleaned form has no `$` at its ends a second pass is
the identity). -/
theorem clean_latex_idempotent_of_clean_ends (s : String)
    (h1 : (clean_latex s).data.head? ≠ some '$')
    (h2 : (clean_latex s).data.getLast? ≠ some '$') :
    clean_latex (clean_latex s) = clean_latex s := by
  have hnows : ∀ a ∈ (clean_latex s).data, isPySpace a = false := by
    intro a ha
    have : a ∈ stripDollarEnds (removeWs s.data) := ha
    exact mem_removeWs_not_space (mem_stripDollarEnds this)
  have hrm : removeWs (clean_latex s).data = (clean_latex s).data :=
    removeWs_eq_self hnows
  have hlead : stripLeadingDollar (clean_latex s).data = (clean_latex s).data :=
    stripLeadingDollar_eq_self h1
  have htail :
      stripLeadingDollar (clean_latex s).data.reverse = (clean_latex s).data.reverse := by
    apply stripLeadingDollar_eq_self
    rw [List.head?_reverse]
    exact h2
  show (⟨stripDollarEnds (removeWs (clean_latex s).data)⟩ : String) = clean_latex s
  rw [hrm]
  unfold stripDollarEnds
  rw [hlead, htail, List.reverse_reverse]

/-- Claim C3 (witness for the amended theorem): a concrete string with no `$`
at the ends of its cleaned form, on which cleaning twice equals cleaning once. -/
theorem clean_latex_idem_witness :
    clean_latex (clean_latex " a b ") = clean_latex " a b " :=
  clean_latex_idempotent_of_clean_ends " a b " (by decide) (by decide)

/-- A trivial backend (nothing parses), used to instantiate theorems at
concrete inputs. -/
def trivCAS : CAS Unit where
  sympify := fun _ => none
  fval := fun _ => none
  simplify := id
  equals := fun _ _ => false
  expand := id
  factor := id
  sub := fun _ _ => ()
  isZero := fun _ => false

theorem firstOk_cases (l : List (String × Bool × ℚ)) :
    (∃ i : Fin l.length, (l.get i).2.1 = true
       ∧ (∀ j : Fin l.length, (j : Nat) < (i : Nat) → (l.get j).2.1 = false)
       ∧ firstOk l = some ((l.get i).1, (l.get i).2.2))
  ∨ ((∀ i : Fin l.length, (l.get i).2.1 = false) ∧ firstOk l = none) := by
  induction l with
  | nil =>
    right
    exact ⟨fun i => absurd i.isLt (by simp), rfl⟩
  | cons hd tl ih =>
    obtain ⟨nm, ok, w⟩ := hd
    cases ok with
    | true =>
      left
      refine ⟨⟨0, by simp⟩, rfl, ?_, ?_⟩
      · intro j hj
        exact absurd hj (Nat.not_lt_zero _)
      · simp [firstOk]
    | false =>
      rcases ih with ⟨i, hi, hmin, heq⟩ | ⟨hall, hnone⟩
      · left
        refine ⟨i.succ, ?_, ?_, ?_⟩
        · simpa using hi
        · intro j hj
          induction j using Fin.cases with
          | zero => rfl
          | succ k =>
            have hk : (k : Nat) < (i : Nat) := by
              simpa using hj
            simpa using hmin k hk
        · simp [firstOk, heq, List.get_cons_succ]
      · right
        refine ⟨?_, ?_⟩
        · intro i
          induction i using Fin.cases with
          | zero => rfl
          | succ k => simpa using hall k
        · simp [firstOk, hnone]

theorem firstOk_mem {l : List (String × Bool × ℚ)} {nm : String} {w : ℚ}
    (h : firstOk l = some (nm, w)) : (nm, true, w) ∈ l := by
  induction l with
  | nil => exact absurd h (by simp [firstOk])
  | cons hd tl ih =>
    obtain ⟨nm', ok, w'⟩ := hd
    cases ok with
    | true =>
      simp only [firstOk, if_true] at h
      have h2 : (nm', w') = (nm, w) := by injection h
      have hn : nm' = nm := congrArg Prod.fst h2
      have hw : w' = w := congrArg Prod.snd h2
      rw [← hn, ← hw]
      exact List.mem_cons_self _ _
    | false =>
      simp only [firstOk, Bool.false_eq_true, if_false] at h
      exact List.mem_cons_of_mem _ (ih h)

/-- Claim C1: for every short-answer comparison the engine evaluates the five
strategies in the fixed source order latex_exact (1.0), numeric (0.9),
symbolic (0.8), algebraic (0.7), rhs_equiv (0.95) — the spec's names for
these are exact-text, numeric, symbolic, algebraic,
equation-right-hand-side — and the first strategy in that order that reports
matched determines the verdict: correct, with that strategy's weight (not the
maximum weight among matching strategies) and explanation
"Answer correct via <strategy name> comparison"; if no strategy matches the
verdict is incorrect with confidence 0 and the expected/got explanation over
the normalized reference and candidate. -/
theorem check_answer_short_first_match {σ : Type} (C : CAS σ)
    (ua ca : String) (sel : Option Int) :
    (strategies C (clean_latex (extract_math_expr (pyStrip ua)))
        (clean_latex (extract_math_expr (pyStrip ca)))).map
          (fun t => (t.1, t.2.2)) =
      [("latex_exact", (1 : ℚ)), ("numeric", 0.9), ("symbolic", 0.8),
       ("algebraic", 0.7), ("rhs_equiv", 0.95)]
  ∧ (let sts := strategies C (clean_latex (extract_math_expr (pyStrip ua)))
        (clean_latex (extract_math_expr (pyStrip ca)))
     (∃ i : Fin sts.length, (sts.get i).2.1 = true
        ∧ (∀ j : Fin sts.length, (j : Nat) < (i : Nat) → (sts.get j).2.1 = false)
        ∧ check_answer C ⟨ua, ca, ProblemType.short_answer, sel⟩ =
            { is_correct := true, confidence := (sts.get i).2.2,
              explanation := "Answer correct via " ++ (sts.get i).1
                ++ " comparison" })
     ∨ ((∀ i : Fin sts.length, (sts.get i).2.1 = false)
        ∧ check_answer C ⟨ua, ca, ProblemType.short_answer, sel⟩ =
            { is_correct := false, confidence := 0,
              explanation := "Answer is incorrect. Expected "
                ++ clean_latex (extract_math_expr (pyStrip ca)) ++ ", got "
                ++ clean_latex (extract_math_expr (pyStrip ua)) })) := by
  refine ⟨rfl, ?_⟩
  rcases firstOk_cases (strategies C (clean_latex (extract_math_expr (pyStrip ua)))
      (clean_latex (extract_math_expr (pyStrip ca)))) with
    ⟨i, hi, hmin, heq⟩ | ⟨hall, hnone⟩
  · left
    refine ⟨i, hi, hmin, ?_⟩
    show handleTop (checkAnswerE C _) = _
    simp only [checkAnswerE, heq]
    rfl
  · right
    refine ⟨hall, ?_⟩
    show handleTop (checkAnswerE C _) = _
    simp only [checkAnswerE, hnone]
    rfl

/-- Claim C5: for a multiple-choice request with an option selected: when the
reference answer parses as an integer the verdict is correct with confidence 1
exactly when the selected index equals it, and otherwise incorrect with
confidence 0 and an explanation containing "Correct option was <n+1>"
(1-based display); when the reference does not parse as an integer the
verdict is incorrect with confidence 0, a human-readable explanation and a
non-null error message. -/
theorem check_answer_mc_spec {σ : Type} (C : CAS σ) (ua ca : String) (sel : Int) :
    (∀ n : Int, pyInt ca = some n →
      check_answer C ⟨ua, ca, ProblemType.multiple_choice, some sel⟩ =
        (if sel = n then
          { is_correct := true, confidence := 1,
            explanation := "Correct answer selected" }
         else
          { is_correct := false, confidence := 0,
            explanation := "Incorrect. Correct option was "
              ++ toString (n + 1) ++ "." }))
  ∧ (pyInt ca = none →
      check_answer C ⟨ua, ca, ProblemType.multiple_choice, some sel⟩ =
        { is_correct := false, confidence := 0,
          explanation := "Invalid correct_answer format",
          error_message := some "Invalid correct_answer format" }) := by
  constructor
  · intro n hn
    show handleTop (checkAnswerE C _) = _
    simp only [checkAnswerE, hn]
    by_cases hs : sel = n
    · rw [if_pos hs, if_pos hs]
      rfl
    · rw [if_neg hs, if_neg hs]
      rfl
  · intro hn
    show handleTop (checkAnswerE C _) = _
    simp only [checkAnswerE, hn]
    rfl

/-- Claim C5 (witness): reference `"2"`, selected `1`: incorrect, confidence
0, explanation showing the 1-based display `3` of the 0-based index `2`. -/
theorem check_answer_mc_witness :
    check_answer trivCAS ⟨"", "2", ProblemType.multiple_choice, some 1⟩ =
      { is_correct := false, confidence := 0,
        explanation := "Incorrect. Correct option was 3." } := by
  have h := (check_answer_mc_spec trivCAS "" "2" 1).1 2 (by decide)
  rw [h]
  decide

/-- Claim C10: a multiple-choice request with no option selected yields an
ordinary wrong-answer verdict — incorrect, confidence 0, explanation
"No option selected", null error message — not the contract-violation error
path. -/
theorem check_answer_mc_no_option {σ : Type} (C : CAS σ) (ua ca : String) :
    check_answer C ⟨ua, ca, ProblemType.multiple_choice, none⟩ =
      { is_correct := false, confidence := 0,
        explanation := "No option selected", error_message := none } := rfl

theorem checkAnswerE_isOk {σ : Type} (C : CAS σ) (req : AnswerCheckRequest) :
    ∃ r, checkAnswerE C req = Except.ok r := by
  obtain ⟨ua, ca, qt, sel⟩ := req
  cases qt with
  | multiple_choice =>
    cases sel with
    | none => exact ⟨_, rfl⟩
    | some s =>
      cases hn : pyInt ca with
      | some n =>
        by_cases hs : s = n
        · exact ⟨{ is_correct := true, confidence := 1,
                   explanation := "Correct answer selected" }, by
            simp only [checkAnswerE, hn]
            rw [if_pos hs]⟩
        · exact ⟨{ is_correct := false, confidence := 0,
                   explanation := "Incorrect. Correct option was "
                     ++ toString (n + 1) ++ "." }, by
            simp only [checkAnswerE, hn]
            rw [if_neg hs]⟩
      | none =>
        exact ⟨{ is_correct := false, confidence := 0,
                 explanation := "Invalid correct_answer format",
                 error_message := some "Invalid correct_answer format" }, by
          simp only [checkAnswerE, hn]⟩
  | short_answer =>
    cases hf : firstOk (strategies C (clean_latex (extract_math_expr (pyStrip ua)))
        (clean_latex (extract_math_expr (pyStrip ca)))) with
    | some p =>
      obtain ⟨nm, w⟩ := p
      exact ⟨{ is_correct := true, confidence := w,
               explanation := "Answer correct via " ++ nm ++ " comparison" }, by
        simp only [checkAnswerE, hf]⟩
    | none =>
      exact ⟨{ is_correct := false, confidence := 0,
               explanation := "Answer is incorrect. Expected "
                 ++ clean_latex (extract_math_expr (pyStrip ca)) ++ ", got "
                 ++ clean_latex (extract_math_expr (pyStrip ua)) }, by
        simp only [checkAnswerE, hf]⟩

/-- Claim C7: no exception escapes the top-level comparison call: the try-body
always returns a verdict (so `check_answer` just forwards it); an exception
reaching the handler would be converted to the validation-error verdict that
carries the exception text; and a parse failure on either side makes each
parsing strategy report not-matched rather than raise. -/
theorem check_answer_total_no_exception {σ : Type} (C : CAS σ)
    (req : AnswerCheckRequest) (a b : String) :
    (∃ r, checkAnswerE C req = Except.ok r ∧ check_answer C req = r)
  ∧ (∀ e : String, handleTop (Except.error e) =
      { is_correct := false, confidence := 0,
        explanation := "Validation error", error_message := some e })
  ∧ (latex_to_sympy C a = none →
        check_numeric_equivalence C a b = false
      ∧ check_numeric_equivalence C b a = false
      ∧ check_symbolic_equivalence C a b = false
      ∧ check_symbolic_equivalence C b a = false
      ∧ check_algebraic_equivalence C a b = false
      ∧ check_algebraic_equivalence C b a = false) := by
  refine ⟨?_, fun e => rfl, ?_⟩
  · obtain ⟨r, hr⟩ := checkAnswerE_isOk C req
    refine ⟨r, hr, ?_⟩
    unfold check_answer
    rw [hr]
    rfl
  · intro hnone
    refine ⟨?_, ?_, ?_, ?_, ?_, ?_⟩ <;>
      cases hb : latex_to_sympy C b <;>
        simp [check_numeric_equivalence, check_symbolic_equivalence,
          check_algebraic_equivalence, hnone, hb]

/-- Claim C7 (helper witness instance used in prose only): with the trivial
backend nothing parses and every strategy reports not-matched. -/
theorem check_strategies_triv_false :
    check_numeric_equivalence trivCAS "x" "y" = false
  ∧ check_symbolic_equivalence trivCAS "x" "y" = false
  ∧ check_algebraic_equivalence trivCAS "x" "y" = false := by
  have h := (check_answer_total_no_exception trivCAS
    ⟨"x", "y", ProblemType.short_answer, none⟩ "x" "y").2.2 rfl
  exact ⟨h.1, h.2.2.1, h.2.2.2.2.1⟩

/-- Claim C6: the numeric strategy matches exactly when both sides parse and
both evaluate to numbers at absolute distance strictly below `1e-9`; a parse
failure on either side, or an evaluation failure (e.g. free variables), makes
it report not-matched rather than raise; and when it is the first matching
strategy (the exact-text strategy having failed) the verdict carries
confidence 0.9. -/
theorem check_numeric_spec {σ : Type} (C : CAS σ) (a b : String) :
    (check_numeric_equivalence C a b = true ↔
      ∃ s1 s2 v1 v2, latex_to_sympy C a = some s1 ∧ latex_to_sympy C b = some s2
        ∧ C.fval s1 = some v1 ∧ C.fval s2 = some v2 ∧ |v1 - v2| < (1e-9 : ℚ))
  ∧ ((latex_to_sympy C a = none ∨ latex_to_sympy C b = none) →
      check_numeric_equivalence C a b = false)
  ∧ (∀ s1 s2, latex_to_sympy C a = some s1 → latex_to_sympy C b = some s2 →
      (C.fval s1 = none ∨ C.fval s2 = none) →
      check_numeric_equivalence C a b = false)
  ∧ (∀ sel : Option Int,
      check_numeric_equivalence C (clean_latex (extract_math_expr (pyStrip a)))
          (clean_latex (extract_math_expr (pyStrip b))) = true →
      (clean_latex (extract_math_expr (pyStrip a))
          == clean_latex (extract_math_expr (pyStrip b))) = false →
      check_answer C ⟨a, b, ProblemType.short_answer, sel⟩ =
        { is_correct := true, confidence := 0.9,
          explanation := "Answer correct via numeric comparison" }) := by
  refine ⟨?_, ?_, ?_, ?_⟩
  · cases ha : latex_to_sympy C a with
    | none => simp [check_numeric_equivalence, ha]
    | some s1 =>
      cases hb : latex_to_sympy C b with
      | none => simp [check_numeric_equivalence, ha, hb]
      | some s2 =>
        cases hv1 : C.fval s1 with
        | none => simp [check_numeric_equivalence, ha, hb, hv1]
        | some v1 =>
          cases hv2 : C.fval s2 with
          | none => simp [check_numeric_equivalence, ha, hb, hv1, hv2]
          | some v2 => simp [check_numeric_equivalence, ha, hb, hv1, hv2]
  · rintro (ha | hb)
    · simp [check_numeric_equivalence, ha]
    · cases ha : latex_to_sympy C a <;> simp [check_numeric_equivalence, ha, hb]
  · rintro s1 s2 ha hb hv
    rcases hv with hv | hv
    · simp [check_numeric_equivalence, ha, hb, hv]
    · cases hv1 : C.fval s1 <;> simp [check_numeric_equivalence, ha, hb, hv1, hv]
  · intro sel h1 h2
    show handleTop (checkAnswerE C _) = _
    simp only [checkAnswerE, strategies, firstOk, h1, h2, Bool.false_eq_true,
      if_false, if_true]
    rfl

theorem respTrio (b : Bool) (w : ℚ) (expl : String) (em rl : Option String)
    (hw : b = false → w = 0)
    (hw2 : b = true → w = 1 ∨ w = 0.9 ∨ w = 0.8 ∨ w = 0.7 ∨ w = 0.95) :
    ((AnswerCheckResponse.mk b w expl em rl).confidence
      ∈ ([0, 0.7, 0.8, 0.9, 0.95, 1] : List ℚ))
  ∧ ((AnswerCheckResponse.mk b w expl em rl).is_correct = false →
      (AnswerCheckResponse.mk b w expl em rl).confidence = 0)
  ∧ ((AnswerCheckResponse.mk b w expl em rl).is_correct = true →
      (0.7 : ℚ) ≤ (AnswerCheckResponse.mk b w expl em rl).confidence) := by
  cases b with
  | false =>
    have h0 : w = 0 := hw rfl
    subst h0
    exact ⟨by simp, fun _ => rfl, fun h => Bool.noConfusion h⟩
  | true =>
    rcases hw2 rfl with h | h | h | h | h <;> subst h <;>
      refine ⟨?_, fun h => Bool.noConfusion h, fun _ => ?_⟩ <;>
      simp only [List.mem_cons, List.not_mem_nil, or_false] <;>
      norm_num

/-- Claim C9: every verdict the router can return has its confidence in the
finite set {0, 0.7, 0.8, 0.9, 0.95, 1}; an incorrect verdict always carries
confidence 0 and a correct one at least 0.7; the same holds of the
validation-error verdict shape. -/
theorem check_answer_confidence_invariant {σ : Type} (C : CAS σ)
    (req : AnswerCheckRequest) :
    ((check_answer C req).confidence ∈ ([0, 0.7, 0.8, 0.9, 0.95, 1] : List ℚ)
      ∧ ((check_answer C req).is_correct = false →
          (check_answer C req).confidence = 0)
      ∧ ((check_answer C req).is_correct = true →
          (0.7 : ℚ) ≤ (check_answer C req).confidence))
  ∧ (∀ e : String, (handleTop (Except.error e)).is_correct = false
      ∧ (handleTop (Except.error e)).confidence = 0) := by
  refine ⟨?_, fun e => ⟨rfl, rfl⟩⟩
  obtain ⟨ua, ca, qt, sel⟩ := req
  cases qt with
  | multiple_choice =>
    cases sel with
    | none =>
      exact respTrio false 0 _ _ _ (fun _ => rfl) (fun h => Bool.noConfusion h)
    | some s =>
      cases hn : pyInt ca with
      | some n =>
        by_cases hs : s = n
        · have h : check_answer C ⟨ua, ca, ProblemType.multiple_choice, some s⟩ =
              { is_correct := true, confidence := 1,
                explanation := "Correct answer selected" } := by
            show handleTop (checkAnswerE C _) = _
            simp only [checkAnswerE, hn]
            rw [if_pos hs]
            rfl
          rw [h]
          exact respTrio true 1 _ _ _ (fun hx => Bool.noConfusion hx)
            (fun _ => Or.inl rfl)
        · have h : check_answer C ⟨ua, ca, ProblemType.multiple_choice, some s⟩ =
              { is_correct := false, confidence := 0,
                explanation := "Incorrect. Correct option was "
                  ++ toString (n + 1) ++ "." } := by
            show handleTop (checkAnswerE C _) = _
            simp only [checkAnswerE, hn]
            rw [if_neg hs]
            rfl
          rw [h]
          exact respTrio false 0 _ _ _ (fun _ => rfl) (fun hx => Bool.noConfusion hx)
      | none =>
        have h : check_answer C ⟨ua, ca, ProblemType.multiple_choice, some s⟩ =
            { is_correct := false, confidence := 0,
              explanation := "Invalid correct_answer format",
              error_message := some "Invalid correct_answer format" } := by
          show handleTop (checkAnswerE C _) = _
          simp only [checkAnswerE, hn]
          rfl
        rw [h]
        exact respTrio false 0 _ _ _ (fun _ => rfl) (fun hx => Bool.noConfusion hx)
  | short_answer =>
    cases hf : firstOk (strategies C (clean_latex (extract_math_expr (pyStrip ua)))
        (clean_latex (extract_math_expr (pyStrip ca)))) with
    | none =>
      have h : check_answer C ⟨ua, ca, ProblemType.short_answer, sel⟩ =
          { is_correct := false, confidence := 0,
            explanation := "Answer is incorrect. Expected "
              ++ clean_latex (extract_math_expr (pyStrip ca)) ++ ", got "
              ++ clean_latex (extract_math_expr (pyStrip ua)) } := by
        show handleTop (checkAnswerE C _) = _
        simp only [checkAnswerE, hf]
        rfl
      rw [h]
      exact respTrio false 0 _ _ _ (fun _ => rfl) (fun hx => Bool.noConfusion hx)
    | some p =>
      obtain ⟨nm, w⟩ := p
      have h : check_answer C ⟨ua, ca, ProblemType.short_answer, sel⟩ =
          { is_correct := true, confidence := w,
            explanation := "Answer correct via " ++ nm ++ " comparison" } := by
        show handleTop (checkAnswerE C _) = _
        simp only [checkAnswerE, hf]
        rfl
      have hmem := firstOk_mem hf
      simp only [strategies, List.mem_cons, List.not_mem_nil, or_false] at hmem
      rw [h]
      refine respTrio true w _ _ _ (fun hx => Bool.noConfusion hx) (fun _ => ?_)
      rcases hmem with hx | hx | hx | hx | hx <;>
        · have hw := congrArg (fun t => t.2.2) hx
          simp only at hw
          subst hw
          norm_num

/-- Claim C2 (amended): the equation-RHS strategy equals: direct symbolic
match, or — when the reference contains `=` AND the candidate does not — a
symbolic match of the candidate against the reference's right-hand side, or
symmetrically; it fires with confidence 0.95.  In particular, for any backend
on which `2x` fails the earlier strategies against `y=2x` (parsing of `y=2x`
fails) but symbolically matches `2x`, candidate `2x` against reference `y=2x`
yields a correct verdict with confidence 0.95. -/
theorem are_equivalent_spec {σ : Type} (C : CAS σ) (u c : String) :
    (are_equivalent C u c =
      (check_symbolic_equivalence C u c
        || (c.data.contains '=' && !(u.data.contains '=')
            && check_symbolic_equivalence C u ⟨pyStripL (afterFirstEq c.data)⟩)
        || (u.data.contains '=' && !(c.data.contains '=')
            && check_symbolic_equivalence C ⟨pyStripL (afterFirstEq u.data)⟩ c)))
  ∧ (∀ sel : Option Int,
      latex_to_sympy C "y=2x" = none →
      check_symbolic_equivalence C "2x" "2x" = true →
      check_answer C ⟨"2x", "y=2x", ProblemType.short_answer, sel⟩ =
        { is_correct := true, confidence := 0.95,
          explanation := "Answer correct via rhs_equiv comparison" }) := by
  constructor
  · by_cases h1 : check_symbolic_equivalence C u c <;>
      by_cases h2 : '=' ∈ c.data <;>
      by_cases h3 : '=' ∈ u.data <;>
      simp [are_equivalent, h1, h2, h3]
  · intro sel hparse hsym
    have hu : clean_latex (extract_math_expr (pyStrip "2x")) = "2x" := by decide
    have hc : clean_latex (extract_math_expr (pyStrip "y=2x")) = "y=2x" := by decide
    have hex : (("2x" : String) == "y=2x") = false := by decide
    have hnum : check_numeric_equivalence C "2x" "y=2x" = false := by
      cases ha : latex_to_sympy C "2x" <;>
        simp [check_numeric_equivalence, ha, hparse]
    have hsy : check_symbolic_equivalence C "2x" "y=2x" = false := by
      cases ha : latex_to_sympy C "2x" <;>
        simp [check_symbolic_equivalence, ha, hparse]
    have halg : check_algebraic_equivalence C "2x" "y=2x" = false := by
      cases ha : latex_to_sympy C "2x" <;>
        simp [check_algebraic_equivalence, ha, hparse]
    have hr : (⟨pyStripL (afterFirstEq ("y=2x" : String).data)⟩ : String) = "2x" := by
      decide
    have hrhs : are_equivalent C "2x" "y=2x" = true := by
      unfold are_equivalent
      rw [hsy, hr]
      have hcontains : (("y=2x" : String).data.contains '='
          && !(("2x" : String).data.contains '=')) = true := by decide
      simp [hcontains, hsym]
    show handleTop (checkAnswerE C _) = _
    simp only [checkAnswerE, hu, hc]
    simp only [strategies, firstOk, hex, hnum, hsy, halg, hrhs,
      Bool.false_eq_true, if_false, if_true]
    rfl

/-- A concrete backend over `σ := String` for the C2 counterexample,
mirroring the relevant SymPy behaviour: the reference string (which contains
a bare `=`) fails to parse, every other string parses to itself, and symbolic
equality is string equality. -/
def cexCAS : CAS String where
  sympify := fun s => if s = "q=k(p=1)" then none else some s
  fval := fun _ => none
  simplify := id
  equals := fun x y => x == y
  expand := id
  factor := id
  sub := fun x _ => x
  isZero := fun _ => false

/-- Claim C2 (counterexample): when BOTH sides contain `=`, the code performs
no right-hand-side retry (its first retry requires `"=" not in user_expr`),
while the claim as stated retries on the part of the reference after `=`
whenever the reference contains `=`: on candidate `k(p=1)` against reference
`q=k(p=1)` the code's strategy reports not-matched and the claim's reading
reports matched. -/
theorem are_equivalent_retry_cex :
    are_equivalent cexCAS "k(p=1)" "q=k(p=1)" = false
  ∧ are_equivalent_claimed cexCAS "k(p=1)" "q=k(p=1)" = true := by
  refine ⟨?_, ?_⟩ <;> decide

end Bayes
